import Mathlib

/-!
Shallow embedding of the slice-db dump/restore engines (src/slice_db/dump.py,
src/slice_db/restore.py) and proofs of the specification claims about them.

Python classes become Lean structures; the mutable `_DiscoveryResult` becomes a
state value threaded explicitly through `DiscoveryResult.add`; Python dicts
become association lists looked up by first occurrence (Python dicts have
unique keys, so first-occurrence lookup agrees); database responses are oracle
parameters.  Helpers of the repository that are not under `src/`
(`collection.set.IntSet`, `pg.tid_to_int`, `collection.dict.groups`) are
modelled from the spec, as flagged in their doc comments.
-/

set_option autoImplicit false

namespace SliceDb

/-! ## Association-list helpers (Python dict, insertion ordered) -/

def lookupAssoc {α : Type} : List (String × α) → String → Option α
  | [], _ => none
  | (k2, v) :: rest, k => if k2 = k then some v else lookupAssoc rest k

/-- Replace the value at key `k` (first occurrence), appending a new entry when
the key is absent — the behaviour of `d[k] = v` on a Python dict. -/
def updateAssoc {α : Type} : List (String × α) → String → α → List (String × α)
  | [], k, v => [(k, v)]
  | (k2, v2) :: rest, k, v =>
    if k2 = k then (k2, v) :: rest else (k2, v2) :: updateAssoc rest k v

/-- Apply `f` to the value at key `k` in place (no effect when absent) — the
behaviour of mutating the object stored at an existing dict key. -/
def modifyAssoc {α : Type} : List (String × α) → String → (α → α) → List (String × α)
  | [], _, _ => []
  | (k2, v2) :: rest, k, f =>
    if k2 = k then (k2, f v2) :: rest else (k2, v2) :: modifyAssoc rest k f

/-! ## Data model (dump.py) -/

/-- Embeds `DumpReferenceDirection` from `formats.dump`. -/
inductive DumpReferenceDirection where
  | FORWARD
  | REVERSE
deriving DecidableEq, Repr

def DumpReferenceDirection.opposite : DumpReferenceDirection → DumpReferenceDirection
  | .FORWARD => .REVERSE
  | .REVERSE => .FORWARD

/-- Embeds `Reference` (dump.py).  In the source, `table` and `reference_table` are
`Table` objects of a cyclic object graph; here they are table ids, which is how
tables are identified throughout. -/
structure Reference where
  directions : List DumpReferenceDirection
  id : String
  table : String
  columns : List String
  reference_table : String
  reference_columns : List String
deriving DecidableEq, Repr

/-- Embeds `Table` (dump.py). -/
structure Table where
  id : String
  name : String
  schema : String
  columns : List String
  references : List Reference
  reverse_references : List Reference
deriving DecidableEq, Repr

/-- A physical row identifier: PostgreSQL `ctid`, a (block, offset) pair. -/
structure Tid where
  block : Nat
  offset : Nat
deriving DecidableEq, Repr

/-- Modelled from the spec: `pg.tid_to_int` is not under `src/`.  Spec §3 says
Tids "are converted to a 64-bit integer for set membership"; this is one such
packing.  No theorem depends on its shape, only on it being a function. -/
def tid_to_int (t : Tid) : Int := ((t.block * 65536 + t.offset) % 2 ^ 64 : Nat)

/-- Modelled from the spec: `collection.set.IntSet` is not under `src/`.
Spec §4.2: a set of 64-bit integers with batch `contains(batch) -> boolean
vector` of the same length and batch `add(batch)`; duplicates are idempotent.
Represented by the list of its members. -/
abbrev IntSet := List Int

/-- Batch `contains(batch)` — membership vector against the current members. -/
def IntSet.contains (s : IntSet) (ints : List Int) : List Bool :=
  ints.map (fun i => decide (i ∈ s))

/-- Batch `add(batch)` — inserts the batch. -/
def IntSet.add (s : IntSet) (ints : List Int) : IntSet := s ++ ints

/-- Embeds `ManifestTableSegment` from `formats.manifest`. -/
structure ManifestTableSegment where
  row_count : Nat
deriving DecidableEq, Repr

/-- Embeds `ManifestTable` from `formats.manifest`. -/
structure ManifestTable where
  columns : List String
  id : String
  name : String
  schema : String
  segments : List ManifestTableSegment
deriving DecidableEq, Repr

/-- Embeds `_TableSegment` (dump.py). -/
structure TableSegment where
  index : Nat
  row_ids : List Tid
  table : Table
deriving DecidableEq, Repr

/-! ## `_DiscoveryResult` (dump.py lines 195-255) -/

/-- The mutable state of `_DiscoveryResult`: `_id_count`, `_row_ids` (a
defaultdict of per-table `IntSet`s) and `_table_manifests` (a dict in
insertion order). -/
structure DiscoveryResult where
  id_count : Nat
  row_ids : List (String × IntSet)
  table_manifests : List (String × ManifestTable)
deriving Repr

/-- Embeds `_DiscoveryResult.__init__`. -/
def DiscoveryResult.init : DiscoveryResult := ⟨0, [], []⟩

/-- Reading `self._row_ids[table.id]` — the defaultdict yields the empty set for an
absent key.  (The defaultdict also materializes an empty entry on such a read;
with lookups defaulting to the empty set this is observationally equal, so the
model omits the write.) -/
def lookupIntSet (l : List (String × IntSet)) (k : String) : IntSet :=
  (lookupAssoc l k).getD []

/-- Embeds `_DiscoveryResult.add` (dump.py lines 209-242), returning the returned
value together with the post-state. -/
def DiscoveryResult.add (self : DiscoveryResult) (table : Table)
    (row_ids : List Tid) : Option TableSegment × DiscoveryResult :=
  let existing_ids := lookupIntSet self.row_ids table.id
  let ints := row_ids.map tid_to_int
  let contains := IntSet.contains existing_ids ints
  let new_ids := ((row_ids.zip contains).filter (fun p => !p.2)).map Prod.fst
  if new_ids = [] then
    (none, self)
  else
    let row_ids2 := updateAssoc self.row_ids table.id
      (IntSet.add existing_ids (((ints.zip contains).filter (fun p => !p.2)).map Prod.fst))
    let id_count2 := self.id_count + new_ids.length
    let manifests :=
      if (lookupAssoc self.table_manifests table.id).isSome then
        self.table_manifests
      else
        self.table_manifests ++
          [(table.id, ⟨table.columns, table.id, table.name, table.schema, []⟩)]
    let table_manifest := (lookupAssoc manifests table.id).getD
      ⟨table.columns, table.id, table.name, table.schema, []⟩
    let segment : TableSegment := ⟨table_manifest.segments.length, new_ids, table⟩
    let manifests2 := updateAssoc manifests table.id
      { table_manifest with segments := table_manifest.segments ++ [⟨new_ids.length⟩] }
    (some segment, ⟨id_count2, row_ids2, manifests2⟩)

/-- A sequence of `add` calls (any interleaving of the worker pool serializes
into such a sequence, `add` being under the result's mutex), collecting the
segments the calls return. -/
def DiscoveryResult.runAdds :
    DiscoveryResult → List (Table × List Tid) → DiscoveryResult × List TableSegment
  | s, [] => (s, [])
  | s, (t, c) :: rest =>
    let r := DiscoveryResult.add s t c
    let p := DiscoveryResult.runAdds r.2 rest
    (p.1, match r.1 with
          | none => p.2
          | some seg => seg :: p.2)

/-! ## Spec-side views used to state the claims -/

/-- The spec's `new = candidate_row_ids \ existing` preserving input order
(spec §4.3 step 3), to be compared with what `add` computes. -/
def DiscoveryResult.newIds (self : DiscoveryResult) (table : Table)
    (row_ids : List Tid) : List Tid :=
  row_ids.filter
    (fun id => !(decide (tid_to_int id ∈ lookupIntSet self.row_ids table.id)))

/-- The segment-stub list of a table's manifest entry (empty when absent). -/
def manifestSegs (s : DiscoveryResult) (tid : String) : List ManifestTableSegment :=
  ((lookupAssoc s.table_manifests tid).map ManifestTable.segments).getD []

/-- The per-table int set held for a table id. -/
def intSetOf (s : DiscoveryResult) (tid : String) : IntSet :=
  lookupIntSet s.row_ids tid

/-- Sum of `row_count` over all segment stubs of all manifest entries. -/
def totalStubs (s : DiscoveryResult) : Nat :=
  (s.table_manifests.map
    (fun p => ((p.2.segments.map ManifestTableSegment.row_count).sum))).sum

/-- The segments of the run that belong to one table. -/
def segsFor (tid : String) (segs : List TableSegment) : List TableSegment :=
  segs.filter (fun g => g.table.id = tid)

/-! ## `_Dump._table_items` (dump.py lines 314-349) -/

/-- Embeds `_ReferenceItem` (dump.py). -/
structure ReferenceItem where
  direction : DumpReferenceDirection
  reference : Reference
  segment : TableSegment
deriving DecidableEq, Repr

/-- The anti-backtrack test of `_table_items`:
`reference_item is not None and reference is reference_item.reference and
reference_item.direction == arrived`.  Within one schema reference objects are
unique (duplicate ids are rejected at construction), so Python object identity
coincides with value equality. -/
def skipInverse (reference_item : Option ReferenceItem) (reference : Reference)
    (arrived : DumpReferenceDirection) : Bool :=
  match reference_item with
  | none => false
  | some item => reference == item.reference && item.direction == arrived

/-- Embeds `_Dump._table_items` — the successor items produced for a fresh segment,
with `reference_item` the item the task arrived by (none for a root task). -/
def table_items (segment : TableSegment) (reference_item : Option ReferenceItem) :
    List ReferenceItem :=
  ((segment.table.references.filter
      (fun reference =>
        decide (DumpReferenceDirection.FORWARD ∈ reference.directions) &&
        !(skipInverse reference_item reference DumpReferenceDirection.REVERSE))).map
    (fun reference => ⟨DumpReferenceDirection.FORWARD, reference, segment⟩))
  ++ ((segment.table.reverse_references.filter
      (fun reference =>
        decide (DumpReferenceDirection.REVERSE ∈ reference.directions) &&
        !(skipInverse reference_item reference DumpReferenceDirection.FORWARD))).map
    (fun reference => ⟨DumpReferenceDirection.REVERSE, reference, segment⟩))

/-! ## `Schema` (dump.py lines 404-463) -/

/-- A table entry of the parsed schema description (`formats.dump`), as read
by `Schema.__init__`. -/
structure DumpTableConfig where
  id : String
  name : String
  schema : String
  columns : List String
deriving DecidableEq, Repr

/-- A reference entry of the parsed schema description. -/
structure DumpReferenceConfig where
  id : String
  table : String
  reference_table : String
  directions : List DumpReferenceDirection
  columns : List String
  reference_columns : List String
deriving DecidableEq, Repr

/-- Embeds `DumpSchema` — the parsed schema description. -/
structure DumpSchema where
  tables : List DumpTableConfig
  references : List DumpReferenceConfig
deriving DecidableEq, Repr

/-- The `Table` value `Schema.__init__` creates for a table entry, before any
reference is attached. -/
def baseTable (tc : DumpTableConfig) : Table :=
  ⟨tc.id, tc.name, tc.schema, tc.columns, [], []⟩

/-- The `Reference` value `Schema.__init__` creates for a reference entry. -/
def mkReference (rc : DumpReferenceConfig) : Reference :=
  ⟨rc.directions, rc.id, rc.table, rc.columns, rc.reference_table,
    rc.reference_columns⟩

/-- Embeds `Schema` — it builds `_tables` and `_references`. -/
structure Schema where
  tables : List (String × Table)
  references : List (String × Reference)
deriving Repr

/-- The first loop of `Schema.__init__`: populate `_tables`, raising on a
duplicate table id. -/
def buildTables :
    List DumpTableConfig → List (String × Table) →
    Except String (List (String × Table))
  | [], acc => .ok acc
  | tc :: rest, acc =>
    if (lookupAssoc acc tc.id).isSome then
      .error ("Multiple definitions for table " ++ tc.id)
    else
      buildTables rest (acc ++ [(tc.id, baseTable tc)])

/-- The second loop of `Schema.__init__`: resolve each reference's tables
(raising when one is missing), reject duplicate reference ids and append the
reference to the source table's `references` and the target table's
`reverse_references`. -/
def buildReferences :
    List DumpReferenceConfig → List (String × Table) → List (String × Reference) →
    Except String (List (String × Table) × List (String × Reference))
  | [], tabs, refs => .ok (tabs, refs)
  | rc :: rest, tabs, refs =>
    match lookupAssoc tabs rc.table with
    | none =>
      .error ("No table " ++ rc.table ++ ", needed by reference " ++ rc.id)
    | some _ =>
      match lookupAssoc tabs rc.reference_table with
      | none =>
        .error ("No table " ++ rc.reference_table ++ ", needed by reference " ++ rc.id)
      | some _ =>
        if (lookupAssoc refs rc.id).isSome then
          .error ("Multiple definitions for reference " ++ rc.id)
        else
          let reference := mkReference rc
          let tabs1 := modifyAssoc tabs rc.table
            (fun t => { t with references := t.references ++ [reference] })
          let tabs2 := modifyAssoc tabs1 rc.reference_table
            (fun t => { t with reverse_references := t.reverse_references ++ [reference] })
          buildReferences rest tabs2 (refs ++ [(rc.id, reference)])

/-- Embeds `Schema.__init__` (dump.py lines 409-451). -/
def Schema.build (schema : DumpSchema) : Except String Schema :=
  match buildTables schema.tables [] with
  | .error e => .error e
  | .ok tabs =>
    match buildReferences schema.references tabs [] with
    | .error e => .error e
    | .ok (tabs2, refs) => .ok ⟨tabs2, refs⟩

/-! ## `dump` configuration check and resource order (dump.py lines 58-109) -/

/-- Embeds `OutputType` (dump.py). -/
inductive OutputType where
  | SQL
  | SLICE
deriving DecidableEq, Repr

/-- Embeds `DumpParams` (dump.py). -/
structure DumpParams where
  include_schema : Bool
  parallelism : Nat
  output_type : OutputType
deriving DecidableEq, Repr

/-- Embeds `DumpRoot` from `formats.dump`. -/
structure DumpRoot where
  table : String
  condition : String
deriving DecidableEq, Repr

/-- Embeds `Root` (dump.py). -/
structure Root where
  table : Table
  condition : String
deriving DecidableEq, Repr

/-- The resource acquisitions of `dump`, in source order: reading the schema
file (line 69), opening the output (line 79) and opening a database session
(line 92). -/
inductive DumpEvent where
  | readSchemaFile
  | openOutput
  | openConn
deriving DecidableEq, Repr

/-- The root-resolution loop of `dump` (lines 72-77). -/
def resolveRoots (schema : Schema) : List DumpRoot → Except String (List Root)
  | [] => .ok []
  | rc :: rest =>
    match lookupAssoc schema.tables rc.table with
    | none => .error ("Root table " ++ rc.table ++ " does not exist")
    | some t =>
      match resolveRoots schema rest with
      | .error e => .error e
      | .ok roots => .ok (⟨t, rc.condition⟩ :: roots)

/-- The prefix of `dump` (lines 58-92) up to opening the database session,
with the resource acquisitions recorded as events in source order.  The
traversal itself (from `_dump_rows` on) is modelled by `DiscoveryResult.add`
and `table_items`.  The schema file's parsed content is passed as a value;
the event records when the source would read the file. -/
def dumpTrace (root_configs : List DumpRoot) (schema_file : DumpSchema)
    (params : DumpParams) : List DumpEvent × Except String Unit :=
  if params.output_type = OutputType.SLICE ∧ params.include_schema = true then
    ([], .error "--output-type=slice is incompatable with --include-schema")
  else
    match Schema.build schema_file with
    | .error e => ([DumpEvent.readSchemaFile], .error e)
    | .ok schema =>
      match resolveRoots schema root_configs with
      | .error e => ([DumpEvent.readSchemaFile], .error e)
      | .ok _ =>
        ([DumpEvent.readSchemaFile, DumpEvent.openOutput, DumpEvent.openConn],
          .ok ())

/-! ## `_discover_reference` (dump.py lines 536-622) -/

/-- The `to_table` selection of `_discover_reference` (lines 546-555); the
table objects are resolved through `getTable` since references carry ids. -/
def referenceTargetTable (getTable : String → Table) (reference : Reference) :
    DumpReferenceDirection → Table
  | .FORWARD => getTable reference.reference_table
  | .REVERSE => getTable reference.table

/-- Embeds `_discover_reference` after its discovery SELECT: `found_ids` stands for
the rows the JOIN query returned and `accountId` for the database's
`account_id` column (queried by table id and ctid), both oracles for the
database.  Lines 582-595: when `to_table` has an `account_id` column, rows of
`found_ids` with `account_id <> 3439` raise an exception naming the table and
the first offending account; otherwise the ids are fed to `result.add` (line
597), skipped when `found_ids` is empty. -/
def discover_reference (getTable : String → Table) (found_ids : List Tid)
    (accountId : String → Tid → Int) (reference : Reference)
    (direction : DumpReferenceDirection) (result : DiscoveryResult) :
    Except String (Option TableSegment × DiscoveryResult) :=
  let to_table := referenceTargetTable getTable reference direction
  let proceed : Option TableSegment × DiscoveryResult :=
    if found_ids.isEmpty then (none, result)
    else DiscoveryResult.add result to_table found_ids
  if "account_id" ∈ to_table.columns then
    match (found_ids.filter
        (fun id => decide (accountId to_table.id id ≠ 3439))).map
        (accountId to_table.id) with
    | [] => .ok proceed
    | a :: _ => .error (to_table.id ++ " Account " ++ toString a)
  else
    .ok proceed

/-! ## `restore` dependency relation (restore.py lines 33-81) -/

/-- Embeds `ForeignKey` (restore.py). -/
structure ForeignKey where
  deferrable : Bool
  name : String
  schema : String
  table : String
  reference_table : String
deriving DecidableEq, Repr

/-- Embeds `RestoreItem` (restore.py). -/
structure RestoreItem where
  table : ManifestTable
deriving DecidableEq, Repr

/-- Modelled from the spec: `collection.dict.groups` is not under `src/`.
It groups an iterable by a key function; spec §4.9 step 5 reads the group of a
table with no non-deferrable constraint as empty, so lookup of an absent key
yields the empty list. -/
def groups (l : List ForeignKey) (key : ForeignKey → String) :
    String → List ForeignKey :=
  fun k => l.filter (fun c => key c = k)

/-- Embeds the dict comprehension building `items`, one `RestoreItem` per
manifest table keyed by table id (restore.py line 41). -/
def restoreItems (manifest_tables : List ManifestTable) :
    List (String × RestoreItem) :=
  manifest_tables.map (fun t => (t.id, ⟨t⟩))

/-- Embeds `deferrable_constaints` (restore.py lines 60-64; the source's spelling). -/
def deferrable_constaints (constraints : List ForeignKey) : List (List String) :=
  (constraints.filter (fun c => c.deferrable)).map (fun c => [c.schema, c.name])

/-- The dependency function handed to the DAG pool (restore.py lines 70-81):
`deps = groups(non-deferrable constraints, by table)` and the lambda
`[items[fk.reference_table] for fk in deps[item.table.id]]`.  A lookup miss
(Python `KeyError`) is `none`. -/
def restore_deps (items : List (String × RestoreItem))
    (constraints : List ForeignKey) (item : RestoreItem) :
    Option (List RestoreItem) :=
  (groups (constraints.filter (fun c => !c.deferrable)) (fun c => c.table)
      item.table.id).mapM
    (fun fk => lookupAssoc items fk.reference_table)

/-! ## Association-list lemmas -/

theorem lookupAssoc_append {α : Type} (l l2 : List (String × α)) (k : String) :
    lookupAssoc (l ++ l2) k = (lookupAssoc l k).or (lookupAssoc l2 k) := by
  induction l with
  | nil => simp [lookupAssoc]
  | cons p rest ih =>
    obtain ⟨k2, v⟩ := p
    by_cases h : k2 = k <;> simp [lookupAssoc, h, ih]

theorem lookupAssoc_updateAssoc {α : Type} (l : List (String × α)) (k k' : String)
    (v : α) :
    lookupAssoc (updateAssoc l k v) k' =
      if k = k' then some v else lookupAssoc l k' := by
  induction l with
  | nil =>
    by_cases h : k = k' <;> simp [updateAssoc, lookupAssoc, h]
  | cons p rest ih =>
    obtain ⟨k2, v2⟩ := p
    by_cases h : k2 = k
    · subst h
      by_cases h2 : k2 = k' <;> simp [updateAssoc, lookupAssoc, h2]
    · by_cases h2 : k2 = k'
      · subst h2
        simp [updateAssoc, lookupAssoc, h, Ne.symm h]
      · simp [updateAssoc, lookupAssoc, h, h2, ih]

theorem lookupAssoc_modifyAssoc {α : Type} (l : List (String × α)) (k k' : String)
    (f : α → α) :
    lookupAssoc (modifyAssoc l k f) k' =
      if k = k' then (lookupAssoc l k').map f else lookupAssoc l k' := by
  induction l with
  | nil =>
    by_cases h : k = k' <;> simp [modifyAssoc, lookupAssoc, h]
  | cons p rest ih =>
    obtain ⟨k2, v2⟩ := p
    by_cases h : k2 = k
    · subst h
      by_cases h2 : k2 = k' <;> simp [modifyAssoc, lookupAssoc, h2]
    · by_cases h2 : k2 = k'
      · subst h2
        simp [modifyAssoc, lookupAssoc, h, Ne.symm h]
      · simp [modifyAssoc, lookupAssoc, h, h2, ih]

theorem modifyAssoc_map_fst {α : Type} (l : List (String × α)) (k : String)
    (f : α → α) :
    (modifyAssoc l k f).map Prod.fst = l.map Prod.fst := by
  induction l with
  | nil => rfl
  | cons p rest ih =>
    obtain ⟨k2, v2⟩ := p
    by_cases h : k2 = k <;> simp [modifyAssoc, h, ih]

theorem lookupAssoc_eq_none_iff {α : Type} (l : List (String × α)) (k : String) :
    lookupAssoc l k = none ↔ k ∉ l.map Prod.fst := by
  induction l with
  | nil => simp [lookupAssoc]
  | cons p rest ih =>
    obtain ⟨k2, v⟩ := p
    by_cases h : k2 = k
    · subst h
      simp [lookupAssoc]
    · simp [lookupAssoc, h, Ne.symm h, ih]

theorem lookupAssoc_isSome_iff {α : Type} (l : List (String × α)) (k : String) :
    (lookupAssoc l k).isSome ↔ k ∈ l.map Prod.fst := by
  constructor
  · intro hs
    by_contra h2
    rw [← lookupAssoc_eq_none_iff] at h2
    rw [h2] at hs
    simp at hs
  · intro hm
    cases h : lookupAssoc l k with
    | none => exact absurd hm ((lookupAssoc_eq_none_iff l k).mp h)
    | some v => simp

/-! ## The new-id computation of `add` as an order-preserving difference -/

theorem zip_contains_map_fst (existing : IntSet) (l : List Tid) :
    ((l.zip (IntSet.contains existing (l.map tid_to_int))).filter
        (fun p => !p.2)).map Prod.fst
      = l.filter (fun id => !(decide (tid_to_int id ∈ existing))) := by
  induction l with
  | nil => rfl
  | cons x xs ih =>
    by_cases h : tid_to_int x ∈ existing <;>
      simp [IntSet.contains, List.filter_cons, h] at * <;> simp [ih]

theorem zip_contains_map_fst_ints (existing : IntSet) (l : List Tid) :
    (((l.map tid_to_int).zip (IntSet.contains existing (l.map tid_to_int))).filter
        (fun p => !p.2)).map Prod.fst
      = (l.filter (fun id => !(decide (tid_to_int id ∈ existing)))).map tid_to_int := by
  induction l with
  | nil => rfl
  | cons x xs ih =>
    by_cases h : tid_to_int x ∈ existing <;>
      simp [IntSet.contains, List.filter_cons, h] at * <;> simp [ih]

/-! ## Big-step characterization of `DiscoveryResult.add` -/

/-- The fresh manifest entry `add` creates for a table not yet listed. -/
def emptyManifest (t : Table) : ManifestTable :=
  ⟨t.columns, t.id, t.name, t.schema, []⟩

/-- State of `_table_manifests` after the create-if-absent step of `add`. -/
def touchManifests (s : DiscoveryResult) (t : Table) :
    List (String × ManifestTable) :=
  if (lookupAssoc s.table_manifests t.id).isSome then s.table_manifests
  else s.table_manifests ++ [(t.id, emptyManifest t)]

/-- The manifest entry `add` reads back after the create-if-absent step. -/
def manifestEntry (s : DiscoveryResult) (t : Table) : ManifestTable :=
  (lookupAssoc (touchManifests s t) t.id).getD (emptyManifest t)

theorem lookupAssoc_touchManifests_self (s : DiscoveryResult) (t : Table) :
    lookupAssoc (touchManifests s t) t.id = some (manifestEntry s t) := by
  unfold manifestEntry touchManifests
  cases h : lookupAssoc s.table_manifests t.id with
  | none => simp [h, lookupAssoc_append, lookupAssoc]
  | some v => simp [h]

theorem lookupAssoc_touchManifests_other (s : DiscoveryResult) (t : Table)
    (u : String) (hu : t.id ≠ u) :
    lookupAssoc (touchManifests s t) u = lookupAssoc s.table_manifests u := by
  unfold touchManifests
  cases h : lookupAssoc s.table_manifests t.id with
  | none => simp [h, lookupAssoc_append, lookupAssoc, hu]
  | some v => simp [h]

theorem manifestEntry_segments (s : DiscoveryResult) (t : Table) :
    (manifestEntry s t).segments = manifestSegs s t.id := by
  unfold manifestEntry touchManifests manifestSegs
  cases h : lookupAssoc s.table_manifests t.id with
  | none => simp [h, lookupAssoc_append, lookupAssoc, emptyManifest]
  | some v => simp [h]

/-- Rewrites `add` with the views `newIds`, `intSetOf`, `manifestEntry`. -/
theorem add_eq (s : DiscoveryResult) (t : Table) (c : List Tid) :
    s.add t c =
      if s.newIds t c = [] then (none, s)
      else
        (some ⟨(manifestSegs s t.id).length, s.newIds t c, t⟩,
          ⟨s.id_count + (s.newIds t c).length,
            updateAssoc s.row_ids t.id
              (intSetOf s t.id ++ (s.newIds t c).map tid_to_int),
            updateAssoc (touchManifests s t) t.id
              { manifestEntry s t with
                  segments :=
                    (manifestEntry s t).segments ++ [⟨(s.newIds t c).length⟩] }⟩) := by
  have hn : s.newIds t c =
      c.filter (fun id => !(decide (tid_to_int id ∈ lookupIntSet s.row_ids t.id))) :=
    rfl
  simp only [DiscoveryResult.add, zip_contains_map_fst, zip_contains_map_fst_ints,
    ← hn]
  by_cases h : s.newIds t c = []
  · simp [h]
  · simp only [h, if_neg h, IntSet.add]
    rw [← manifestEntry_segments]
    unfold manifestEntry touchManifests emptyManifest intSetOf lookupIntSet
    rfl

theorem add_fst (s : DiscoveryResult) (t : Table) (c : List Tid) :
    (s.add t c).1 =
      if s.newIds t c = [] then none
      else some ⟨(manifestSegs s t.id).length, s.newIds t c, t⟩ := by
  rw [add_eq]
  by_cases h : s.newIds t c = [] <;> simp [h]

theorem add_none_iff (s : DiscoveryResult) (t : Table) (c : List Tid) :
    (s.add t c).1 = none ↔ s.newIds t c = [] := by
  rw [add_fst]
  by_cases h : s.newIds t c = [] <;> simp [h]

theorem add_none_state (s : DiscoveryResult) (t : Table) (c : List Tid)
    (h : (s.add t c).1 = none) : (s.add t c).2 = s := by
  have he := (add_none_iff s t c).mp h
  rw [add_eq, if_pos he]

theorem add_some_inv (s : DiscoveryResult) (t : Table) (c : List Tid)
    (seg : TableSegment) (h : (s.add t c).1 = some seg) :
    seg = ⟨(manifestSegs s t.id).length, s.newIds t c, t⟩ ∧ s.newIds t c ≠ [] := by
  rw [add_fst] at h
  by_cases he : s.newIds t c = []
  · rw [if_pos he] at h
    exact Option.noConfusion h
  · rw [if_neg he] at h
    exact ⟨(Option.some.injEq _ _ ▸ h).symm, he⟩

theorem add_id_count (s : DiscoveryResult) (t : Table) (c : List Tid) :
    (s.add t c).2.id_count = s.id_count + (s.newIds t c).length := by
  rw [add_eq]
  by_cases h : s.newIds t c = [] <;> simp [h]

theorem intSetOf_add (s : DiscoveryResult) (t : Table) (c : List Tid) (u : String) :
    intSetOf (s.add t c).2 u =
      intSetOf s u ++ (if t.id = u then (s.newIds t c).map tid_to_int else []) := by
  rw [add_eq]
  by_cases h : s.newIds t c = []
  · simp [h]
  · rw [if_neg h]
    dsimp only
    by_cases hu : t.id = u
    · subst hu
      unfold intSetOf lookupIntSet
      rw [lookupAssoc_updateAssoc]
      simp [intSetOf, lookupIntSet]
    · unfold intSetOf lookupIntSet
      rw [lookupAssoc_updateAssoc]
      simp [hu]

theorem manifestSegs_add (s : DiscoveryResult) (t : Table) (c : List Tid)
    (u : String) :
    manifestSegs (s.add t c).2 u =
      manifestSegs s u ++
        (if t.id = u ∧ s.newIds t c ≠ [] then [⟨(s.newIds t c).length⟩] else []) := by
  rw [add_eq]
  by_cases h : s.newIds t c = []
  · simp [h]
  · rw [if_neg h]
    dsimp only
    by_cases hu : t.id = u
    · subst hu
      unfold manifestSegs
      rw [lookupAssoc_updateAssoc]
      simp [manifestEntry_segments, h, manifestSegs]
    · unfold manifestSegs
      rw [lookupAssoc_updateAssoc, if_neg hu,
        lookupAssoc_touchManifests_other s t u hu]
      simp [hu]

theorem sum_updateAssoc_append_stub (l : List (String × ManifestTable)) (k : String)
    (tm : ManifestTable) (n : Nat) (h : lookupAssoc l k = some tm) :
    ((updateAssoc l k { tm with segments := tm.segments ++ [⟨n⟩] }).map
        (fun p => ((p.2.segments.map ManifestTableSegment.row_count).sum))).sum
      = (l.map
          (fun p => ((p.2.segments.map ManifestTableSegment.row_count).sum))).sum
        + n := by
  induction l with
  | nil => simp [lookupAssoc] at h
  | cons p rest ih =>
    obtain ⟨k2, v⟩ := p
    by_cases hk : k2 = k
    · subst hk
      simp [lookupAssoc] at h
      subst h
      simp [updateAssoc]
      omega
    · simp only [lookupAssoc, if_neg hk] at h
      simp [updateAssoc, hk, ih h]
      omega

theorem totalStubs_touch (s : DiscoveryResult) (t : Table) :
    ((touchManifests s t).map
        (fun p => ((p.2.segments.map ManifestTableSegment.row_count).sum))).sum
      = totalStubs s := by
  unfold touchManifests totalStubs
  by_cases h : (lookupAssoc s.table_manifests t.id).isSome <;>
    simp [h, emptyManifest]

theorem totalStubs_add (s : DiscoveryResult) (t : Table) (c : List Tid) :
    totalStubs (s.add t c).2 = totalStubs s + (s.newIds t c).length := by
  rw [add_eq]
  by_cases h : s.newIds t c = []
  · simp [h]
  · rw [if_neg h]
    dsimp only
    unfold totalStubs
    rw [sum_updateAssoc_append_stub _ _ _ _ (lookupAssoc_touchManifests_self s t),
      totalStubs_touch]
    rfl

/-! ## Run-level lemmas over sequences of `add` calls -/

theorem runAdds_id_count_eq_totalStubs :
    ∀ (calls : List (Table × List Tid)) (s : DiscoveryResult),
      s.id_count = totalStubs s →
      ((DiscoveryResult.runAdds s calls).1).id_count =
        totalStubs (DiscoveryResult.runAdds s calls).1 := by
  intro calls
  induction calls with
  | nil => intro s h; exact h
  | cons p rest ih =>
    intro s h
    obtain ⟨t, c⟩ := p
    simp only [DiscoveryResult.runAdds]
    apply ih
    rw [add_id_count, totalStubs_add, h]

theorem mem_intSetOf_add (s : DiscoveryResult) (t : Table) (c : List Tid)
    (u : String) (i : Int) (h : i ∈ intSetOf s u) :
    i ∈ intSetOf (s.add t c).2 u := by
  rw [intSetOf_add]
  exact List.mem_append_left _ h

theorem mem_newIds_not_mem (s : DiscoveryResult) (t : Table) (c : List Tid)
    (x : Tid) (h : x ∈ s.newIds t c) : tid_to_int x ∉ intSetOf s t.id := by
  unfold DiscoveryResult.newIds at h
  have h2 := List.of_mem_filter h
  simpa [intSetOf] using h2

theorem mem_newIds_mem_after (s : DiscoveryResult) (t : Table) (c : List Tid)
    (x : Tid) (h : x ∈ s.newIds t c) :
    tid_to_int x ∈ intSetOf (s.add t c).2 t.id := by
  rw [intSetOf_add, if_pos rfl]
  exact List.mem_append_right _ (List.mem_map_of_mem tid_to_int h)

theorem runAdds_fresh :
    ∀ (calls : List (Table × List Tid)) (s : DiscoveryResult),
      ∀ seg ∈ (DiscoveryResult.runAdds s calls).2, ∀ x ∈ seg.row_ids,
        tid_to_int x ∉ intSetOf s seg.table.id := by
  intro calls
  induction calls with
  | nil =>
    intro s seg h
    simp [DiscoveryResult.runAdds] at h
  | cons p rest ih =>
    intro s seg hseg x hx hmem
    obtain ⟨t, c⟩ := p
    simp only [DiscoveryResult.runAdds] at hseg
    cases hfst : (s.add t c).1 with
    | none =>
      rw [hfst] at hseg
      rw [← add_none_state s t c hfst] at hmem
      exact ih (s.add t c).2 seg hseg x hx hmem
    | some seg' =>
      rw [hfst] at hseg
      rcases List.mem_cons.mp hseg with heq | hrest
      · obtain ⟨hval, _⟩ := add_some_inv s t c seg' hfst
        subst heq
        subst hval
        exact mem_newIds_not_mem s t c x hx hmem
      · exact ih (s.add t c).2 seg hrest x hx
          (mem_intSetOf_add s t c seg.table.id (tid_to_int x) hmem)

theorem runAdds_pairwise_disjoint :
    ∀ (calls : List (Table × List Tid)) (s : DiscoveryResult),
      ((DiscoveryResult.runAdds s calls).2).Pairwise
        (fun a b => a.table.id = b.table.id → ∀ x ∈ a.row_ids, x ∉ b.row_ids) := by
  intro calls
  induction calls with
  | nil =>
    intro s
    simp [DiscoveryResult.runAdds]
  | cons p rest ih =>
    intro s
    obtain ⟨t, c⟩ := p
    simp only [DiscoveryResult.runAdds]
    cases hfst : (s.add t c).1 with
    | none => exact ih _
    | some seg' =>
      refine List.Pairwise.cons ?_ (ih _)
      intro b hb htab x hxa hxb
      obtain ⟨hval, _⟩ := add_some_inv s t c seg' hfst
      have hfresh := runAdds_fresh rest (s.add t c).2 b hb x hxb
      subst hval
      have hx1 : tid_to_int x ∈ intSetOf (s.add t c).2 t.id :=
        mem_newIds_mem_after s t c x hxa
      simp only at htab
      rw [htab] at hx1
      exact hfresh hx1

theorem runAdds_manifest :
    ∀ (calls : List (Table × List Tid)) (s : DiscoveryResult) (tid : String),
      manifestSegs (DiscoveryResult.runAdds s calls).1 tid
          = manifestSegs s tid ++
            (segsFor tid (DiscoveryResult.runAdds s calls).2).map
              (fun g => ⟨g.row_ids.length⟩)
        ∧ (segsFor tid (DiscoveryResult.runAdds s calls).2).map TableSegment.index
          = List.range' (manifestSegs s tid).length
              (segsFor tid (DiscoveryResult.runAdds s calls).2).length := by
  intro calls
  induction calls with
  | nil =>
    intro s tid
    simp [DiscoveryResult.runAdds, segsFor]
  | cons p rest ih =>
    intro s tid
    obtain ⟨t, c⟩ := p
    simp only [DiscoveryResult.runAdds]
    cases hfst : (s.add t c).1 with
    | none =>
      rw [add_none_state s t c hfst]
      exact ih s tid
    | some seg' =>
      obtain ⟨hval, hne⟩ := add_some_inv s t c seg' hfst
      obtain ⟨ih1, ih2⟩ := ih (s.add t c).2 tid
      subst hval
      by_cases htid : t.id = tid
      · subst htid
        have hsegs : manifestSegs (s.add t c).2 t.id =
            manifestSegs s t.id ++ [⟨(s.newIds t c).length⟩] := by
          rw [manifestSegs_add]
          simp [hne]
        have hfil : segsFor t.id
            (⟨(manifestSegs s t.id).length, s.newIds t c, t⟩ ::
              (DiscoveryResult.runAdds (s.add t c).2 rest).2)
            = ⟨(manifestSegs s t.id).length, s.newIds t c, t⟩ ::
              segsFor t.id (DiscoveryResult.runAdds (s.add t c).2 rest).2 := by
          simp [segsFor, List.filter_cons]
        constructor
        · rw [hfil, ih1, hsegs]
          simp
        · rw [hfil]
          simp only [List.map_cons, List.length_cons, List.range'_succ,
            List.cons.injEq]
          constructor
          · trivial
          · rw [ih2, hsegs]
            simp
      · have hsegs : manifestSegs (s.add t c).2 tid = manifestSegs s tid := by
          rw [manifestSegs_add]
          simp [htid]
        have hfil : segsFor tid
            (⟨(manifestSegs s t.id).length, s.newIds t c, t⟩ ::
              (DiscoveryResult.runAdds (s.add t c).2 rest).2)
            = segsFor tid (DiscoveryResult.runAdds (s.add t c).2 rest).2 := by
          simp [segsFor, List.filter_cons, htid]
        rw [hfil, ih1, ih2, hsegs]
        exact ⟨rfl, rfl⟩

/-! ## Concrete fixtures used by the witnesses -/

def tableA : Table := ⟨"a", "a", "public", ["id"], [], []⟩

def tid1 : Tid := ⟨1, 1⟩

def tid2 : Tid := ⟨1, 2⟩

def tid3 : Tid := ⟨1, 3⟩

/-! ## Claim theorems -/

/-- C1: `add(table, candidate_row_ids)` computes the newly added ids as the
candidates minus the table's existing row-id set, preserving input order; when
that difference is empty it returns `None` and leaves the manifests unchanged;
otherwise it returns a segment whose `row_ids` are exactly the new ids and
appends a stub with `row_count` equal to their number to the table's manifest
entry, creating the entry when absent. -/
theorem add_new_ids_spec (s : DiscoveryResult) (t : Table) (c : List Tid) :
    s.newIds t c =
      c.filter (fun id => !(decide (tid_to_int id ∈ intSetOf s t.id)))
    ∧ (s.newIds t c = [] →
        (s.add t c).1 = none ∧ (s.add t c).2.table_manifests = s.table_manifests)
    ∧ (s.newIds t c ≠ [] →
        (s.add t c).1 = some ⟨(manifestSegs s t.id).length, s.newIds t c, t⟩
        ∧ manifestSegs (s.add t c).2 t.id
            = manifestSegs s t.id ++ [⟨(s.newIds t c).length⟩]
        ∧ (lookupAssoc s.table_manifests t.id = none →
            lookupAssoc (s.add t c).2.table_manifests t.id
              = some ⟨t.columns, t.id, t.name, t.schema,
                  [⟨(s.newIds t c).length⟩]⟩)) := by
  refine ⟨rfl, ?_, ?_⟩
  · intro he
    rw [add_eq, if_pos he]
    exact ⟨rfl, rfl⟩
  · intro hne
    refine ⟨?_, ?_, ?_⟩
    · rw [add_fst, if_neg hne]
    · rw [manifestSegs_add]
      simp [hne]
    · intro hnone
      have hentry : manifestEntry s t = emptyManifest t := by
        unfold manifestEntry touchManifests
        simp [hnone, lookupAssoc_append, lookupAssoc]
      rw [add_eq, if_neg hne]
      dsimp only
      rw [lookupAssoc_updateAssoc, if_pos rfl, hentry]
      simp [emptyManifest]

theorem add_new_ids_spec_witness :
    (DiscoveryResult.init.add tableA [tid1, tid2]).1
        = some ⟨0, [tid1, tid2], tableA⟩
    ∧ ((DiscoveryResult.init.add tableA [tid1, tid2]).2.add tableA [tid1]).1
        = none := by
  have h1 := add_new_ids_spec DiscoveryResult.init tableA [tid1, tid2]
  have h2 := add_new_ids_spec (DiscoveryResult.init.add tableA [tid1, tid2]).2
    tableA [tid1]
  exact ⟨((h1.2.2 (by decide)).1).trans (by decide), (h2.2.1 (by decide)).1⟩

/-- C2: over any sequence of `add` calls, no row identifier appears in the
segments of two distinct successful calls on the same table: the row-id lists
of any two distinct returned segments of one table are disjoint. -/
theorem segments_disjoint (calls : List (Table × List Tid)) :
    ((DiscoveryResult.runAdds DiscoveryResult.init calls).2).Pairwise
      (fun a b => a.table.id = b.table.id → ∀ x ∈ a.row_ids, x ∉ b.row_ids) :=
  runAdds_pairwise_disjoint calls DiscoveryResult.init

theorem segments_disjoint_witness :
    ((DiscoveryResult.runAdds DiscoveryResult.init
        [(tableA, [tid1, tid2]), (tableA, [tid2, tid3])]).2).Pairwise
      (fun a b => a.table.id = b.table.id → ∀ x ∈ a.row_ids, x ∉ b.row_ids) :=
  segments_disjoint [(tableA, [tid1, tid2]), (tableA, [tid2, tid3])]

/-- C4: after any sequence of `add` calls from the initial state, each table's
returned segments carry the indices `0, 1, ...` in order of the successful
calls, and the table's manifest stubs are, in the same order, exactly the
`row_count` records of those segments. -/
theorem segment_index_contiguity (calls : List (Table × List Tid)) (tid : String) :
    (segsFor tid (DiscoveryResult.runAdds DiscoveryResult.init calls).2).map
        TableSegment.index
      = List.range
          (segsFor tid (DiscoveryResult.runAdds DiscoveryResult.init calls).2).length
    ∧ manifestSegs (DiscoveryResult.runAdds DiscoveryResult.init calls).1 tid
      = (segsFor tid (DiscoveryResult.runAdds DiscoveryResult.init calls).2).map
          (fun g => ⟨g.row_ids.length⟩) := by
  obtain ⟨h1, h2⟩ := runAdds_manifest calls DiscoveryResult.init tid
  have hinit : manifestSegs DiscoveryResult.init tid = [] := rfl
  constructor
  · rw [h2, hinit, List.range_eq_range']
    rfl
  · rw [h1, hinit]
    rfl

/-- C9: ids duplicated inside one candidate batch are not deduplicated against
each other — only against previously added ids: an id not yet in the table's
set keeps its full multiplicity in the returned segment's `row_ids`, and the
recorded `row_count` counts every occurrence. -/
theorem add_batch_duplicates_kept (s : DiscoveryResult) (t : Table) (c : List Tid)
    (x : Tid) (hx : x ∈ c) (hfresh : tid_to_int x ∉ intSetOf s t.id) :
    ∃ seg, (s.add t c).1 = some seg
      ∧ seg.row_ids.count x = c.count x
      ∧ manifestSegs (s.add t c).2 t.id
          = manifestSegs s t.id ++ [⟨seg.row_ids.length⟩] := by
  have hp : (fun id => !(decide (tid_to_int id ∈ intSetOf s t.id))) x = true := by
    simp [hfresh]
  have hxnew : x ∈ s.newIds t c := by
    unfold DiscoveryResult.newIds
    exact List.mem_filter.mpr ⟨hx, hp⟩
  have hne : s.newIds t c ≠ [] := by
    intro he
    rw [he] at hxnew
    simp at hxnew
  refine ⟨⟨(manifestSegs s t.id).length, s.newIds t c, t⟩, ?_, ?_, ?_⟩
  · rw [add_fst, if_neg hne]
  · show (s.newIds t c).count x = c.count x
    unfold DiscoveryResult.newIds
    exact List.count_filter hp
  · rw [manifestSegs_add]
    simp [hne]

theorem add_batch_duplicates_kept_witness :
    ((DiscoveryResult.init.add tableA [tid1, tid2, tid1]).1.map
        (fun seg => seg.row_ids.count tid1)) = some 2 := by
  obtain ⟨seg, h1, h2, _⟩ := add_batch_duplicates_kept DiscoveryResult.init tableA
    [tid1, tid2, tid1] tid1 (by decide) (by decide)
  rw [h1, Option.map_some', h2]
  decide

/-- C10: the running total `row_count` always equals the sum of `row_count`
over all segment stubs of all manifest entries; a successful `add` increments
both by exactly the appended stub's `row_count`, and a `None`-returning `add`
changes neither the counter nor the manifests. -/
theorem row_count_invariant (calls : List (Table × List Tid)) (s : DiscoveryResult)
    (t : Table) (c : List Tid) :
    ((DiscoveryResult.runAdds DiscoveryResult.init calls).1).id_count
      = totalStubs (DiscoveryResult.runAdds DiscoveryResult.init calls).1
    ∧ ((s.add t c).1 = none →
        (s.add t c).2.id_count = s.id_count
        ∧ (s.add t c).2.table_manifests = s.table_manifests)
    ∧ (∀ seg, (s.add t c).1 = some seg →
        (s.add t c).2.id_count = s.id_count + seg.row_ids.length
        ∧ totalStubs (s.add t c).2 = totalStubs s + seg.row_ids.length) := by
  refine ⟨runAdds_id_count_eq_totalStubs calls DiscoveryResult.init rfl, ?_, ?_⟩
  · intro hnone
    rw [add_none_state s t c hnone]
    exact ⟨rfl, rfl⟩
  · intro seg hseg
    obtain ⟨hval, _⟩ := add_some_inv s t c seg hseg
    subst hval
    exact ⟨add_id_count s t c, totalStubs_add s t c⟩

theorem row_count_invariant_witness :
    ((DiscoveryResult.init.add tableA [tid1]).2.id_count
        = DiscoveryResult.init.id_count + 1)
    ∧ (((DiscoveryResult.init.add tableA [tid1]).2.add tableA [tid1]).2.id_count
        = (DiscoveryResult.init.add tableA [tid1]).2.id_count) := by
  constructor
  · exact ((row_count_invariant [] DiscoveryResult.init tableA [tid1]).2.2
      ⟨0, [tid1], tableA⟩ (by decide)).1
  · exact ((row_count_invariant [] (DiscoveryResult.init.add tableA [tid1]).2
      tableA [tid1]).2.1 (by decide)).1

/-- C3: a task that arrived at its segment via reference R in direction D
emits no successor item for R in the opposite direction, while every other
reference with the corresponding direction enabled is emitted. -/
theorem table_items_anti_backtrack (segment : TableSegment) (ri : ReferenceItem) :
    (∀ it ∈ table_items segment (some ri),
        ¬(it.reference = ri.reference ∧ it.direction = ri.direction.opposite))
    ∧ (∀ r ∈ segment.table.references,
        DumpReferenceDirection.FORWARD ∈ r.directions →
        ¬(r = ri.reference ∧ ri.direction = DumpReferenceDirection.REVERSE) →
        (⟨DumpReferenceDirection.FORWARD, r, segment⟩ : ReferenceItem) ∈
          table_items segment (some ri))
    ∧ (∀ r ∈ segment.table.reverse_references,
        DumpReferenceDirection.REVERSE ∈ r.directions →
        ¬(r = ri.reference ∧ ri.direction = DumpReferenceDirection.FORWARD) →
        (⟨DumpReferenceDirection.REVERSE, r, segment⟩ : ReferenceItem) ∈
          table_items segment (some ri)) := by
  refine ⟨?_, ?_, ?_⟩
  · intro it hit hcon
    obtain ⟨h1, h2⟩ := hcon
    unfold table_items at hit
    rcases List.mem_append.mp hit with hf | hr
    · obtain ⟨r, hrmem, hreq⟩ := List.mem_map.mp hf
      obtain ⟨-, hfil⟩ := List.mem_filter.mp hrmem
      subst hreq
      simp only at h1 h2
      subst h1
      cases hd : ri.direction with
      | FORWARD =>
        rw [hd] at h2
        exact DumpReferenceDirection.noConfusion h2
      | REVERSE =>
        simp [skipInverse, hd] at hfil
    · obtain ⟨r, hrmem, hreq⟩ := List.mem_map.mp hr
      obtain ⟨-, hfil⟩ := List.mem_filter.mp hrmem
      subst hreq
      simp only at h1 h2
      subst h1
      cases hd : ri.direction with
      | REVERSE =>
        rw [hd] at h2
        exact DumpReferenceDirection.noConfusion h2
      | FORWARD =>
        simp [skipInverse, hd] at hfil
  · intro r hr hfwd hnot
    have hskip : skipInverse (some ri) r DumpReferenceDirection.REVERSE = false := by
      unfold skipInverse
      by_cases he : r = ri.reference
      · by_cases hd : ri.direction = DumpReferenceDirection.REVERSE
        · exact absurd ⟨he, hd⟩ hnot
        · simp [he, hd]
      · simp [he]
    refine List.mem_append_left _ ?_
    refine List.mem_map.mpr ⟨r, List.mem_filter.mpr ⟨hr, ?_⟩, rfl⟩
    simp [hfwd, hskip]
  · intro r hr hrev hnot
    have hskip : skipInverse (some ri) r DumpReferenceDirection.FORWARD = false := by
      unfold skipInverse
      by_cases he : r = ri.reference
      · by_cases hd : ri.direction = DumpReferenceDirection.FORWARD
        · exact absurd ⟨he, hd⟩ hnot
        · simp [he, hd]
      · simp [he]
    refine List.mem_append_right _ ?_
    refine List.mem_map.mpr ⟨r, List.mem_filter.mpr ⟨hr, ?_⟩, rfl⟩
    simp [hrev, hskip]

/-- The self-loop reference `node.parent_id → node.id` with both directions
enabled, and its table, for the C3 witness. -/
def refP : Reference :=
  ⟨[DumpReferenceDirection.FORWARD, DumpReferenceDirection.REVERSE], "p", "n",
    ["parent_id"], "n", ["id"]⟩

def tableN : Table := ⟨"n", "node", "public", ["id", "parent_id"], [refP], [refP]⟩

def segN : TableSegment := ⟨0, [tid1], tableN⟩

def riN : ReferenceItem := ⟨DumpReferenceDirection.FORWARD, refP, segN⟩

theorem table_items_anti_backtrack_witness :
    (⟨DumpReferenceDirection.REVERSE, refP, segN⟩ : ReferenceItem) ∉
        table_items segN (some riN)
    ∧ (⟨DumpReferenceDirection.FORWARD, refP, segN⟩ : ReferenceItem) ∈
        table_items segN (some riN) := by
  constructor
  · intro hmem
    exact (table_items_anti_backtrack segN riN).1 _ hmem (by decide)
  · exact (table_items_anti_backtrack segN riN).2.1 refP (by decide) (by decide)
      (by decide)

theorem mapM_lookup_some {α : Type} (f : ForeignKey → Option α) :
    ∀ (l : List ForeignKey), (∀ a ∈ l, (f a).isSome) →
      ∃ out, l.mapM f = some out ∧ ∀ d, d ∈ out ↔ ∃ a ∈ l, f a = some d := by
  intro l
  induction l with
  | nil =>
    intro _
    exact ⟨[], rfl, by simp⟩
  | cons a rest ih =>
    intro h
    obtain ⟨v, hv⟩ := Option.isSome_iff_exists.mp (h a (List.mem_cons_self a rest))
    obtain ⟨out, hout, hiff⟩ := ih (fun b hb => h b (List.mem_cons_of_mem a hb))
    refine ⟨v :: out, ?_, ?_⟩
    · rw [List.mapM_cons, hv, hout]
      rfl
    · intro d
      simp only [List.mem_cons]
      constructor
      · rintro (rfl | hd)
        · exact ⟨a, Or.inl rfl, hv⟩
        · obtain ⟨b, hb, hbd⟩ := (hiff d).mp hd
          exact ⟨b, Or.inr hb, hbd⟩
      · rintro ⟨b, rfl | hb, hbd⟩
        · rw [hv] at hbd
          exact Or.inl (Option.some.injEq _ _ ▸ hbd).symm
        · exact Or.inr ((hiff d).mpr ⟨b, hb, hbd⟩)

/-- C5: the dependency relation handed to restore's DAG pool maps each item to
exactly the items of the reference tables of the non-deferrable foreign-key
constraints of that item's table, while deferrable constraints contribute no
dependency edge and are instead collected for deferral.  The hypothesis — that
every non-deferrable constraint's referenced table is among the manifest
tables — is what `get_constaints` guarantees by joining `pg_constraint`
against the manifest's table list. -/
theorem restore_deps_spec (manifest_tables : List ManifestTable)
    (constraints : List ForeignKey) (item : RestoreItem)
    (hres : ∀ c ∈ constraints, c.deferrable = false →
      (lookupAssoc (restoreItems manifest_tables) c.reference_table).isSome) :
    ∃ l, restore_deps (restoreItems manifest_tables) constraints item = some l
      ∧ (∀ d, d ∈ l ↔ ∃ c ∈ constraints, c.deferrable = false
          ∧ c.table = item.table.id
          ∧ lookupAssoc (restoreItems manifest_tables) c.reference_table = some d)
      ∧ (∀ c ∈ constraints, c.deferrable = true →
          [c.schema, c.name] ∈ deferrable_constaints constraints) := by
  have hgrp : ∀ fk, fk ∈ groups (constraints.filter (fun c => !c.deferrable))
        (fun c => c.table) item.table.id
      ↔ fk ∈ constraints ∧ fk.deferrable = false ∧ fk.table = item.table.id := by
    intro fk
    unfold groups
    constructor
    · intro hm
      obtain ⟨hm2, htab⟩ := List.mem_filter.mp hm
      obtain ⟨hm3, hdef⟩ := List.mem_filter.mp hm2
      refine ⟨hm3, by simpa using hdef, by simpa using htab⟩
    · intro ⟨hm3, hdef, htab⟩
      exact List.mem_filter.mpr
        ⟨List.mem_filter.mpr ⟨hm3, by simp [hdef]⟩, by simpa using htab⟩
  obtain ⟨out, hout, hiff⟩ := mapM_lookup_some
    (fun fk => lookupAssoc (restoreItems manifest_tables) fk.reference_table)
    (groups (constraints.filter (fun c => !c.deferrable)) (fun c => c.table)
      item.table.id)
    (by
      intro fk hfk
      obtain ⟨hm, hdef, -⟩ := (hgrp fk).mp hfk
      exact hres fk hm hdef)
  refine ⟨out, hout, ?_, ?_⟩
  · intro d
    rw [hiff d]
    constructor
    · rintro ⟨fk, hfk, hlook⟩
      obtain ⟨hm, hdef, htab⟩ := (hgrp fk).mp hfk
      exact ⟨fk, hm, hdef, htab, hlook⟩
    · rintro ⟨fk, hm, hdef, htab, hlook⟩
      exact ⟨fk, (hgrp fk).mpr ⟨hm, hdef, htab⟩, hlook⟩
  · intro c hc hdef
    unfold deferrable_constaints
    exact List.mem_map.mpr ⟨c, List.mem_filter.mpr ⟨hc, by simp [hdef]⟩, rfl⟩

/-- Manifest tables and a non-deferrable constraint `b.a_id → a.id` for the
C5 witness. -/
def manA : ManifestTable := ⟨["id"], "a", "a", "public", []⟩

def manB : ManifestTable := ⟨["id", "a_id"], "b", "b", "public", []⟩

def fkBA : ForeignKey := ⟨false, "fk_b_a", "public", "b", "a"⟩

theorem restore_deps_spec_witness :
    (restore_deps (restoreItems [manA, manB]) [fkBA] ⟨manB⟩).isSome = true
    ∧ (⟨manA⟩ : RestoreItem) ∈
        (restore_deps (restoreItems [manA, manB]) [fkBA] ⟨manB⟩).getD [] := by
  obtain ⟨l, hl, hiff, -⟩ := restore_deps_spec [manA, manB] [fkBA] ⟨manB⟩
    (by decide)
  rw [hl]
  refine ⟨rfl, ?_⟩
  exact (hiff ⟨manA⟩).mpr ⟨fkBA, List.mem_cons_self fkBA [], rfl, rfl, by decide⟩

/-! ## Lemmas on `Schema` construction -/

theorem buildTables_keys :
    ∀ (tcs : List DumpTableConfig) (acc tabs : List (String × Table)),
      buildTables tcs acc = .ok tabs →
      tabs.map Prod.fst = acc.map Prod.fst ++ tcs.map DumpTableConfig.id
      ∧ ((acc.map Prod.fst).Nodup → (tabs.map Prod.fst).Nodup) := by
  intro tcs
  induction tcs with
  | nil =>
    intro acc tabs h
    simp only [buildTables, Except.ok.injEq] at h
    subst h
    simp
  | cons tc rest ih =>
    intro acc tabs h
    simp only [buildTables] at h
    by_cases hs : (lookupAssoc acc tc.id).isSome
    · rw [if_pos hs] at h
      exact Except.noConfusion h
    · rw [if_neg hs] at h
      obtain ⟨h1, h2⟩ := ih (acc ++ [(tc.id, baseTable tc)]) tabs h
      constructor
      · rw [h1]
        simp
      · intro hnd
        apply h2
        have hmem : tc.id ∉ acc.map Prod.fst := fun hm =>
          hs ((lookupAssoc_isSome_iff acc tc.id).mpr hm)
        simp [List.nodup_append, hnd, hmem]

theorem buildTables_lookup :
    ∀ (tcs : List DumpTableConfig) (acc tabs : List (String × Table)),
      buildTables tcs acc = .ok tabs →
      (∀ k v, lookupAssoc acc k = some v → lookupAssoc tabs k = some v)
      ∧ (∀ tc ∈ tcs, lookupAssoc tabs tc.id = some (baseTable tc)) := by
  intro tcs
  induction tcs with
  | nil =>
    intro acc tabs h
    simp only [buildTables, Except.ok.injEq] at h
    subst h
    exact ⟨fun _ _ hv => hv, by simp⟩
  | cons tc rest ih =>
    intro acc tabs h
    simp only [buildTables] at h
    by_cases hs : (lookupAssoc acc tc.id).isSome
    · rw [if_pos hs] at h
      exact Except.noConfusion h
    · rw [if_neg hs] at h
      obtain ⟨hpres, hmem⟩ := ih (acc ++ [(tc.id, baseTable tc)]) tabs h
      have hacc : ∀ k v, lookupAssoc acc k = some v →
          lookupAssoc (acc ++ [(tc.id, baseTable tc)]) k = some v := by
        intro k v hv
        rw [lookupAssoc_append, hv]
        rfl
      refine ⟨fun k v hv => hpres k v (hacc k v hv), ?_⟩
      intro tc2 htc2
      rcases List.mem_cons.mp htc2 with heq | hrest
      · subst heq
        apply hpres
        have hnone : lookupAssoc acc tc2.id = none := by
          cases hl : lookupAssoc acc tc2.id with
          | none => rfl
          | some v => exact absurd (by simp [hl]) hs
        rw [lookupAssoc_append, hnone]
        simp [lookupAssoc]
      · exact hmem tc2 hrest

theorem buildReferences_spec :
    ∀ (rcs : List DumpReferenceConfig) (tabs : List (String × Table))
      (refs : List (String × Reference)) (tabs2 : List (String × Table))
      (refs2 : List (String × Reference)),
      buildReferences rcs tabs refs = .ok (tabs2, refs2) →
      (∀ tid t, lookupAssoc tabs tid = some t →
        ∃ t2, lookupAssoc tabs2 tid = some t2
          ∧ t2.id = t.id ∧ t2.name = t.name ∧ t2.schema = t.schema
          ∧ t2.columns = t.columns
          ∧ t2.references = t.references ++
              ((rcs.filter (fun rc => rc.table = tid)).map mkReference)
          ∧ t2.reverse_references = t.reverse_references ++
              ((rcs.filter (fun rc => rc.reference_table = tid)).map mkReference))
      ∧ (refs2.map Prod.fst = refs.map Prod.fst ++ rcs.map DumpReferenceConfig.id)
      ∧ ((refs.map Prod.fst).Nodup → (refs2.map Prod.fst).Nodup)
      ∧ (∀ rc ∈ rcs, rc.table ∈ tabs.map Prod.fst
          ∧ rc.reference_table ∈ tabs.map Prod.fst) := by
  intro rcs
  induction rcs with
  | nil =>
    intro tabs refs tabs2 refs2 h
    simp only [buildReferences, Except.ok.injEq, Prod.mk.injEq] at h
    obtain ⟨h1, h2⟩ := h
    subst h1
    subst h2
    refine ⟨?_, by simp, fun hnd => hnd, by simp⟩
    intro tid t hlook
    exact ⟨t, hlook, rfl, rfl, rfl, rfl, by simp, by simp⟩
  | cons rc rest ih =>
    intro tabs refs tabs2 refs2 h
    simp only [buildReferences] at h
    cases hl1 : lookupAssoc tabs rc.table with
    | none =>
      rw [hl1] at h
      exact Except.noConfusion h
    | some tsrc =>
      rw [hl1] at h
      cases hl2 : lookupAssoc tabs rc.reference_table with
      | none =>
        rw [hl2] at h
        exact Except.noConfusion h
      | some ttgt =>
        rw [hl2] at h
        by_cases hdup : (lookupAssoc refs rc.id).isSome
        · rw [if_pos hdup] at h
          exact Except.noConfusion h
        · rw [if_neg hdup] at h
          obtain ⟨hA, hB, hC, hD⟩ := ih _ _ _ _ h
          refine ⟨?_, ?_, ?_, ?_⟩
          · intro tid t hlook
            have hmid : lookupAssoc
                (modifyAssoc tabs rc.table
                  (fun t => { t with references := t.references ++ [mkReference rc] }))
                tid
                = some (if rc.table = tid
                    then { t with references := t.references ++ [mkReference rc] }
                    else t) := by
              rw [lookupAssoc_modifyAssoc]
              by_cases hs : rc.table = tid <;> simp [hs, hlook]
            have hstep : lookupAssoc
                (modifyAssoc
                  (modifyAssoc tabs rc.table
                    (fun t => { t with references := t.references ++ [mkReference rc] }))
                  rc.reference_table
                  (fun t => { t with
                    reverse_references := t.reverse_references ++ [mkReference rc] }))
                tid
                = some (
                    let tmid := if rc.table = tid
                      then { t with references := t.references ++ [mkReference rc] }
                      else t
                    if rc.reference_table = tid
                      then { tmid with
                        reverse_references := tmid.reverse_references ++ [mkReference rc] }
                      else tmid) := by
              rw [lookupAssoc_modifyAssoc]
              by_cases ht : rc.reference_table = tid <;> simp [ht, hmid]
            obtain ⟨t2, hlook2, hid, hname, hschema, hcols, hrefs, hrev⟩ :=
              hA tid _ hstep
            refine ⟨t2, hlook2, ?_, ?_, ?_, ?_, ?_, ?_⟩
            · rw [hid]
              by_cases hs : rc.table = tid <;> by_cases ht : rc.reference_table = tid <;>
                simp [hs, ht]
            · rw [hname]
              by_cases hs : rc.table = tid <;> by_cases ht : rc.reference_table = tid <;>
                simp [hs, ht]
            · rw [hschema]
              by_cases hs : rc.table = tid <;> by_cases ht : rc.reference_table = tid <;>
                simp [hs, ht]
            · rw [hcols]
              by_cases hs : rc.table = tid <;> by_cases ht : rc.reference_table = tid <;>
                simp [hs, ht]
            · rw [hrefs, List.filter_cons]
              by_cases hs : rc.table = tid <;> by_cases ht : rc.reference_table = tid <;>
                simp [hs, ht]
            · rw [hrev, List.filter_cons]
              by_cases hs : rc.table = tid <;> by_cases ht : rc.reference_table = tid <;>
                simp [hs, ht]
          · rw [hB]
            simp
          · intro hnd
            apply hC
            have hmem : rc.id ∉ refs.map Prod.fst := fun hm =>
              hdup ((lookupAssoc_isSome_iff refs rc.id).mpr hm)
            simp [List.nodup_append, hnd, hmem]
          · intro rc2 hrc2
            rcases List.mem_cons.mp hrc2 with heq | hrest
            · subst heq
              exact ⟨(lookupAssoc_isSome_iff tabs rc2.table).mp (by simp [hl1]),
                (lookupAssoc_isSome_iff tabs rc2.reference_table).mp (by simp [hl2])⟩
            · have := hD rc2 hrest
              rwa [modifyAssoc_map_fst, modifyAssoc_map_fst] at this

/-- C6: schema construction succeeds only when no table id repeats, no
reference id repeats and every reference's source and target tables resolve,
and on success each table's `references` are exactly (in config order) the
references with that source table, and its `reverse_references` exactly those
with that target table — a bidirectional adjacency. -/
theorem schema_build_spec (schema : DumpSchema) (s : Schema)
    (h : Schema.build schema = .ok s) :
    (schema.tables.map DumpTableConfig.id).Nodup
    ∧ (schema.references.map DumpReferenceConfig.id).Nodup
    ∧ (∀ rc ∈ schema.references,
        rc.table ∈ schema.tables.map DumpTableConfig.id
        ∧ rc.reference_table ∈ schema.tables.map DumpTableConfig.id)
    ∧ (∀ tc ∈ schema.tables, ∃ t, lookupAssoc s.tables tc.id = some t
        ∧ t.id = tc.id ∧ t.name = tc.name ∧ t.schema = tc.schema
        ∧ t.columns = tc.columns
        ∧ t.references =
            (schema.references.filter (fun rc => rc.table = tc.id)).map mkReference
        ∧ t.reverse_references =
            (schema.references.filter
              (fun rc => rc.reference_table = tc.id)).map mkReference) := by
  unfold Schema.build at h
  cases h1 : buildTables schema.tables [] with
  | error e =>
    simp only [h1] at h
    exact Except.noConfusion h
  | ok tabs =>
    simp only [h1] at h
    cases h2 : buildReferences schema.references tabs [] with
    | error e =>
      simp only [h2] at h
      exact Except.noConfusion h
    | ok p =>
      obtain ⟨tabs2, refs2⟩ := p
      simp only [h2, Except.ok.injEq] at h
      subst h
      obtain ⟨hkeys, hnodup⟩ := buildTables_keys schema.tables [] tabs h1
      obtain ⟨-, hlook⟩ := buildTables_lookup schema.tables [] tabs h1
      obtain ⟨hA, hB, hC, hD⟩ := buildReferences_spec schema.references tabs []
        tabs2 refs2 h2
      have hkeys2 : tabs.map Prod.fst = schema.tables.map DumpTableConfig.id := by
        rw [hkeys]
        rfl
      refine ⟨?_, ?_, ?_, ?_⟩
      · have := hnodup (by simp)
        rwa [hkeys2] at this
      · have := hC (by simp)
        rwa [hB] at this
      · intro rc hrc
        obtain ⟨ha, hb⟩ := hD rc hrc
        rw [hkeys2] at ha hb
        exact ⟨ha, hb⟩
      · intro tc htc
        obtain ⟨t2, hlook2, hid, hname, hschema, hcols, hrefs, hrev⟩ :=
          hA tc.id (baseTable tc) (hlook tc htc)
        exact ⟨t2, hlook2, hid, hname, hschema, hcols,
          by simpa [baseTable] using hrefs, by simpa [baseTable] using hrev⟩

/-- The one-table, one-self-reference schema description for the C6 witness;
it builds to the `tableN` fixture. -/
def schemaW : DumpSchema :=
  ⟨[⟨"n", "node", "public", ["id", "parent_id"]⟩],
    [⟨"p", "n", "n",
      [DumpReferenceDirection.FORWARD, DumpReferenceDirection.REVERSE],
      ["parent_id"], ["id"]⟩]⟩

theorem schema_build_spec_witness :
    (schemaW.tables.map DumpTableConfig.id).Nodup
    ∧ (schemaW.references.map DumpReferenceConfig.id).Nodup := by
  have hb : Schema.build schemaW = .ok ⟨[("n", tableN)], [("p", refP)]⟩ := rfl
  have h := schema_build_spec schemaW ⟨[("n", tableN)], [("p", refP)]⟩ hb
  exact ⟨h.1, h.2.1⟩

/-- C7: with `output_type = slice` and `include_schema` both set, `dump`
raises the configuration error before any resource is touched: the trace holds
no event, so the schema file is not read, the output is not opened and no
database session is opened. -/
theorem dump_config_check_first (root_configs : List DumpRoot)
    (schema_file : DumpSchema) (params : DumpParams)
    (hslice : params.output_type = OutputType.SLICE)
    (hschema : params.include_schema = true) :
    dumpTrace root_configs schema_file params
      = ([], .error "--output-type=slice is incompatable with --include-schema")
    ∧ ∀ e : DumpEvent, e ∉ (dumpTrace root_configs schema_file params).1 := by
  have h : dumpTrace root_configs schema_file params
      = ([], .error "--output-type=slice is incompatable with --include-schema") := by
    unfold dumpTrace
    rw [if_pos ⟨hslice, hschema⟩]
  refine ⟨h, ?_⟩
  intro e
  rw [h]
  simp

theorem dump_config_check_first_witness :
    dumpTrace [] ⟨[], []⟩ ⟨true, 1, OutputType.SLICE⟩
      = ([], .error "--output-type=slice is incompatable with --include-schema") :=
  (dump_config_check_first [] ⟨[], []⟩ ⟨true, 1, OutputType.SLICE⟩ rfl rfl).1

/-- C8: when the discovery target table has an `account_id` column and some
discovered row's account id differs from 3439, `_discover_reference` raises an
exception naming the table and an offending account id instead of adding the
rows. -/
theorem discover_reference_account_check (getTable : String → Table)
    (found_ids : List Tid) (accountId : String → Tid → Int)
    (reference : Reference) (direction : DumpReferenceDirection)
    (result : DiscoveryResult)
    (hcol : "account_id" ∈ (referenceTargetTable getTable reference direction).columns)
    (hbad : ∃ x ∈ found_ids,
      accountId (referenceTargetTable getTable reference direction).id x ≠ 3439) :
    ∃ a, a ≠ 3439
      ∧ (∃ x ∈ found_ids,
          accountId (referenceTargetTable getTable reference direction).id x = a)
      ∧ discover_reference getTable found_ids accountId reference direction result
        = .error ((referenceTargetTable getTable reference direction).id
            ++ " Account " ++ toString a) := by
  obtain ⟨x, hx, hxne⟩ := hbad
  have hmem : x ∈ found_ids.filter
      (fun id => decide (accountId
        (referenceTargetTable getTable reference direction).id id ≠ 3439)) :=
    List.mem_filter.mpr ⟨hx, by simpa using hxne⟩
  cases hfl : found_ids.filter
      (fun id => decide (accountId
        (referenceTargetTable getTable reference direction).id id ≠ 3439)) with
  | nil =>
    rw [hfl] at hmem
    simp at hmem
  | cons y ys =>
    have hy := List.mem_filter.mp (hfl ▸ List.mem_cons_self y ys)
    refine ⟨accountId (referenceTargetTable getTable reference direction).id y,
      by simpa using hy.2, ⟨y, hy.1, rfl⟩, ?_⟩
    simp only [discover_reference]
    rw [if_pos hcol, hfl]
    rfl

/-- A table with an `account_id` column and a reference into it, for the C8
witness. -/
def tableB : Table := ⟨"b", "b", "public", ["id", "account_id"], [], []⟩

def refBA : Reference :=
  ⟨[DumpReferenceDirection.FORWARD], "rb", "b", ["a_id"], "a", ["id"]⟩

theorem discover_reference_account_check_witness :
    discover_reference (fun _ => tableB) [tid1] (fun _ _ => 5) refBA
        DumpReferenceDirection.FORWARD DiscoveryResult.init
      = .error "b Account 5" := by
  obtain ⟨a, -, ⟨x, -, hax⟩, herr⟩ := discover_reference_account_check
    (fun _ => tableB) [tid1] (fun _ _ => 5) refBA DumpReferenceDirection.FORWARD
    DiscoveryResult.init (by decide) ⟨tid1, by decide, by decide⟩
  rw [herr, ← hax]
  rfl

end SliceDb
